import Mathlib

/-!
Verification development for the IntrusiveSharedPointer library: an
intrusive atomically reference-counted handle (`ShpBase` / `Shp<T>`,
src/IntrusiveShp.hpp) layered under a free-list pool
(`FreeListNode` / `FreeListBase`).

The embedding is sequential: each C++ member function becomes a pure
Lean function over an explicit state.  The reference count
(`std::atomic<int>`) is modelled as an unbounded `Int` (no claim's
scenario approaches `int` overflow, which would be undefined behavior
in the source anyway); the advisory pool counter (`std::atomic<unsigned>`)
wraps modulo 2^32 as the C++ type does.  Invocations of the virtual
`unmanage` hook are recorded in an event log, since the hook is the
customization point whose firing the specification talks about.
-/

/-- Pointwise update of a function used as a heap: `updFn f i v` maps
`i` to `v` and every other index through `f`. -/
def updFn {α : Type} (f : Nat → α) (i : Nat) (v : α) : Nat → α :=
  fun j => if j = i then v else f j

theorem updFn_self {α : Type} (f : Nat → α) (i : Nat) (v : α) : updFn f i v i = v := by
  simp [updFn]

theorem updFn_other {α : Type} (f : Nat → α) (i : Nat) (v : α) (j : Nat) (h : j ≠ i) :
    updFn f i v j = f j := by
  simp [updFn, h]

/-- State of the reference-counting layer: `cnt o` is the value of
`refcnt_` of the object at address `o`, and `hooks` is the log of
`unmanage` invocations (most recent first), recording each time
`decRef` fired the release hook. -/
structure RefState where
  cnt : Nat → Int
  hooks : List Nat

/-- `ShpBase::incRef`: `refcnt_.fetch_add(1)` — increments the count and
returns the prior value. -/
def ShpBase.incRef (o : Nat) (s : RefState) : Int × RefState :=
  (s.cnt o, { s with cnt := updFn s.cnt o (s.cnt o + 1) })

/-- `ShpBase::decRef`: `rv = refcnt_.fetch_sub(1); if (1 == rv) unmanage(Key());
return rv;` — decrements the count, returns the prior value, and invokes the
release hook exactly when the prior value was 1.  The hook invocation is
recorded by prepending the object to the log. -/
def ShpBase.decRef (o : Nat) (s : RefState) : Int × RefState :=
  let rv := s.cnt o
  let s' : RefState := { s with cnt := updFn s.cnt o (rv - 1) }
  if rv = 1 then (rv, { s' with hooks := o :: s'.hooks }) else (rv, s')

/-- `Shp<T>::Shp(T *p)`: if the pointer is non-null, `incRef` it; the
handle stores the pointer.  Returns (stored pointer, new state). -/
def Shp.ofRaw (p : Option Nat) (s : RefState) : Option Nat × RefState :=
  match p with
  | some o => (p, (ShpBase.incRef o s).2)
  | none => (p, s)

/-- `Shp<T>::Shp(const Shp<U> &rhs, dummy_tag)`: `p_ = rhs.get(); if (p_)
p_->incRef();` — the tag-dispatched copy constructor, and the target the
public copy constructors delegate to. -/
def Shp.copyTagCtor (rhs : Option Nat) (s : RefState) : Option Nat × RefState :=
  match rhs with
  | some o => (rhs, (ShpBase.incRef o s).2)
  | none => (rhs, s)

/-- `Shp<T>::Shp(Shp<U> &&rhs, dummy_tag)`: `p_ = rhs.get(); rhs.p_ = nullptr;`
— the tag-dispatched move constructor: takes the pointer over without
touching the count and nulls the source.  Returns ((new handle, rhs after),
state).  Note this overload is never selected by the public constructors,
see `Shp.moveCtor`. -/
def Shp.moveTagCtor (rhs : Option Nat) (s : RefState) : (Option Nat × Option Nat) × RefState :=
  ((rhs, none), s)

/-- `Shp<T>::Shp(Shp<U> &&rhs) : Shp(rhs, dummy_tag())` as executed.  Inside
the delegating constructor the named parameter `rhs` is an lvalue, and an
lvalue cannot bind to the `Shp<U>&&` parameter of the move tag overload, so
overload resolution selects the `const Shp<U>&` (copy) tag constructor.
The executed behavior is therefore the copy path: the count is
incremented and the source handle is left untouched.  Returns
((new handle, rhs after), state). -/
def Shp.moveCtor (rhs : Option Nat) (s : RefState) : (Option Nat × Option Nat) × RefState :=
  let r := Shp.copyTagCtor rhs s
  ((r.1, rhs), r.2)

/-- `Shp<T>::operator=(const Shp<U> &rhs)` (primary revision):
`auto old = p_; if ((p_ = rhs.get())) p_->incRef(); if (old) old->decRef();`
— remembers the old pointer, adopts and increments the new one, then
decrements the old.  Returns (new stored pointer, new state). -/
def Shp.copyAssign (tgt rhs : Option Nat) (s : RefState) : Option Nat × RefState :=
  let old := tgt
  let s1 : RefState :=
    match rhs with
    | some o => (ShpBase.incRef o s).2
    | none => s
  let s2 : RefState :=
    match old with
    | some o => (ShpBase.decRef o s1).2
    | none => s1
  (rhs, s2)

/-- `Shp<T>::operator=(Shp<U> &&rhs)` (primary revision):
`if ((p = get()) != (p_ = rhs.get())) { if (p) p->decRef(); rhs.p_ = nullptr; }`
— a deliberate no-op when both handles hold the same pointer (both null or
both aliasing the same object); otherwise the target's old share is
released and the source is nulled.  Returns ((new target, rhs after), state). -/
def Shp.moveAssign (tgt rhs : Option Nat) (s : RefState) : (Option Nat × Option Nat) × RefState :=
  if tgt = rhs then ((tgt, rhs), s)
  else
    let s1 : RefState :=
      match tgt with
      | some o => (ShpBase.decRef o s).2
      | none => s
    ((rhs, none), s1)

/-- An `incRef` or `decRef` call on the object at the given address. -/
inductive RefOp where
  | inc (o : Nat)
  | dec (o : Nat)
deriving DecidableEq

/-- Execute one reference-count operation, keeping only the state. -/
def runRefOp (s : RefState) : RefOp → RefState
  | .inc o => (ShpBase.incRef o s).2
  | .dec o => (ShpBase.decRef o s).2

/-- Execute a sequence of reference-count operations. -/
def runRefOps (s : RefState) : List RefOp → RefState
  | [] => s
  | op :: rest => runRefOps (runRefOp s op) rest

/-- Sample reference state: every count 1, empty hook log. -/
def refS1 : RefState := { cnt := fun _ => 1, hooks := [] }

/-- Sample reference state: every count 2, empty hook log. -/
def refS2 : RefState := { cnt := fun _ => 2, hooks := [] }

example : (ShpBase.decRef 0 refS1).1 = 1 := by decide
example : ((ShpBase.decRef 0 refS1).2).hooks = [0] := by decide
example : ((ShpBase.decRef 0 refS2).2).hooks = [] := by decide
example : (Shp.copyAssign (some 0) (some 0) refS1).2.cnt 0 = 1 := by decide
example : (Shp.copyAssign (some 0) (some 0) refS1).2.hooks = [] := by decide
example : (Shp.moveCtor (some 0) refS1).2.cnt 0 = 2 := by decide
example : (Shp.moveAssign (some 0) (some 0) refS2).1.2 = some 0 := by decide

/-!
Free-list layer (the `FreeListNode` / `FreeListBase` header).  Nodes and
pools live at `Nat` addresses in an explicit world.  The `mutable union`
of `FreeListNode` (`list_` / `next_`) is a single pointer-sized slot; the
embedding keeps the value together with a tag recording which member was
last written, and the getters read the stored value regardless of the tag
(both members are pointers, matching the byte-level union).  The
`std::mutex` is not modelled: the embedding is sequential and each C++
operation holds the lock for its whole body. -/

/-- Errors of the free-list layer.  `badAlloc` is the `std::bad_alloc`
thrown by the link-field accessors when the node is referenced;
`undef` marks behavior undefined in C++ (dereferencing a null owner
pool), which no claim's execution reaches. -/
inductive FLErr where
  | badAlloc
  | undef
deriving DecidableEq

/-- Last-written member of the `u_` union of a `FreeListNode`: the
free-chain `next_` pointer or the owning-pool `list_` pointer. -/
inductive ULink where
  | nextPtr (p : Option Nat)
  | listPtr (p : Option Nat)
deriving DecidableEq

/-- Pointer value stored in the union slot, regardless of which member
was last written. -/
def ULink.ptr : ULink → Option Nat
  | .nextPtr p => p
  | .listPtr p => p

/-- A `FreeListNode`: its inherited `ShpBase` reference count and the
`u_` union slot. -/
structure FLNode where
  cnt : Int
  link : ULink
deriving DecidableEq

/-- `ShpBase::use_count`: `refcnt_.load()`. -/
def FLNode.use_count (n : FLNode) : Int := n.cnt

/-- `FreeListNode::next`: `if (use_count()) throw std::bad_alloc(); return u_.next_;` -/
def FLNode.next (n : FLNode) : Except FLErr (Option Nat) :=
  if n.use_count ≠ 0 then .error .badAlloc else .ok n.link.ptr

/-- `FreeListNode::setNext`: `if (use_count()) throw std::bad_alloc(); u_.next_ = p;` -/
def FLNode.setNext (n : FLNode) (p : Option Nat) : Except FLErr FLNode :=
  if n.use_count ≠ 0 then .error .badAlloc else .ok { n with link := .nextPtr p }

/-- `FreeListNode::list`: `if (use_count()) throw std::bad_alloc(); return u_.list_;` -/
def FLNode.list (n : FLNode) : Except FLErr (Option Nat) :=
  if n.use_count ≠ 0 then .error .badAlloc else .ok n.link.ptr

/-- `FreeListNode::setList`: `if (use_count()) throw std::bad_alloc(); u_.list_ = p;` -/
def FLNode.setList (n : FLNode) (p : Option Nat) : Except FLErr FLNode :=
  if n.use_count ≠ 0 then .error .badAlloc else .ok { n with link := .listPtr p }

/-- A `FreeListBase` pool: the `anchor_` head of the free chain and the
advisory `avail_` counter (`std::atomic<unsigned>`, so it wraps mod 2^32). -/
structure FreeListBase where
  anchor_ : Option Nat
  avail_ : Nat
deriving DecidableEq

/-- World of the free-list layer: nodes and pools at `Nat` addresses. -/
structure FLWorld where
  nodes : Nat → FLNode
  pools : Nat → FreeListBase

/-- `FreeListBase::put` of pool `P` applied to node `p`:
`p->setNext(anchor_); anchor_ = p; avail_.fetch_add(1);` — the thrown
`bad_alloc` of `setNext` propagates before any state is mutated. -/
def FreeListBase.put (w : FLWorld) (P : Nat) (p : Nat) : Except FLErr FLWorld :=
  match (w.nodes p).setNext (w.pools P).anchor_ with
  | .error e => .error e
  | .ok node' =>
      .ok { w with
              nodes := updFn w.nodes p node',
              pools := updFn w.pools P
                { anchor_ := some p,
                  avail_ := ((w.pools P).avail_ + 1) % 2 ^ 32 } }

/-- `FreeListBase::getRaw` of pool `P`:
`auto rv = anchor_; if (rv) { anchor_ = rv->next(); rv->setList(this);
avail_.fetch_sub(1); } return rv;` — returns the detached head (or null)
together with the new world; a `bad_alloc` from `next` propagates before
any state is mutated. -/
def FreeListBase.getRaw (w : FLWorld) (P : Nat) : Except FLErr (Option Nat × FLWorld) :=
  match (w.pools P).anchor_ with
  | none => .ok (none, w)
  | some r =>
      match (w.nodes r).next with
      | .error e => .error e
      | .ok nxt =>
          match (w.nodes r).setList (some P) with
          | .error e => .error e
          | .ok node' =>
              .ok (some r,
                { w with
                    nodes := updFn w.nodes r node',
                    pools := updFn w.pools P
                      { anchor_ := nxt,
                        avail_ := ((w.pools P).avail_ + (2 ^ 32 - 1)) % 2 ^ 32 } })

/-- `FreeListBase::get<T>` of pool `P`: `auto p = getRaw(); return
Shp<T>(static_cast<T*>(p));` — the `Shp` constructor increments the
count of a non-null result.  Returns (handle, new world). -/
def FreeListBase.get (w : FLWorld) (P : Nat) : Except FLErr (Option Nat × FLWorld) :=
  match FreeListBase.getRaw w P with
  | .error e => .error e
  | .ok (none, w') => .ok (none, w')
  | .ok (some n, w') =>
      let nd := w'.nodes n
      .ok (some n, { w' with nodes := updFn w'.nodes n { nd with cnt := nd.cnt + 1 } })

/-- Modelled from the spec: the body of `FreeListNode::unmanage` is not
among the repository sources (only its declaration in the free-list
header is); per the spec the release-hook specialization "instructs the
owning pool to accept the node back (append to its free chain)", i.e. it
reads the `list_` member written at checkout and calls that pool's
`put(this)`. -/
def FreeListNode.unmanage (w : FLWorld) (o : Nat) : Except FLErr FLWorld :=
  match (w.nodes o).list with
  | .error e => .error e
  | .ok none => .error .undef
  | .ok (some P) => FreeListBase.put w P o

/-- `ShpBase::decRef` executed at dynamic type `FreeListNode`:
`rv = refcnt_.fetch_sub(1); if (1 == rv) unmanage(Key()); return rv;` —
the virtual call dispatches to `FreeListNode.unmanage`. -/
def FLWorld.decRef (w : FLWorld) (o : Nat) : Except FLErr (Int × FLWorld) :=
  let rv := (w.nodes o).cnt
  let w' : FLWorld := { w with nodes := updFn w.nodes o { w.nodes o with cnt := rv - 1 } }
  if rv = 1 then
    match FreeListNode.unmanage w' o with
    | .error e => .error e
    | .ok w2 => .ok (rv, w2)
  else .ok (rv, w')

/-- Sample world: every node unreferenced with a null `next_`, every
pool with an empty chain and advisory counter 0. -/
def flW0 : FLWorld :=
  { nodes := fun _ => { cnt := 0, link := .nextPtr none },
    pools := fun _ => { anchor_ := none, avail_ := 0 } }

example : (FreeListBase.put flW0 0 5).map (fun w => (w.pools 0).anchor_) = .ok (some 5) := rfl
example : (FreeListBase.put flW0 0 5).map (fun w => (w.nodes 5).link) = .ok (.nextPtr none) := rfl
example :
    ((FreeListBase.put flW0 0 5).bind (fun w => FreeListBase.get w 0)).map
      (fun r => (r.1, (r.2.nodes 5).cnt, (r.2.nodes 5).link, (r.2.pools 0).avail_)) =
    .ok (some 5, 1, .listPtr (some 0), 0) := rfl

/-! Basic lemmas about the reference-count primitives. -/

theorem incRef_cnt_self (o : Nat) (s : RefState) :
    ((ShpBase.incRef o s).2).cnt o = s.cnt o + 1 := by
  simp [ShpBase.incRef, updFn]

theorem incRef_cnt_other (o : Nat) (s : RefState) (x : Nat) (hx : x ≠ o) :
    ((ShpBase.incRef o s).2).cnt x = s.cnt x := by
  simp [ShpBase.incRef, updFn, hx]

theorem incRef_hooks (o : Nat) (s : RefState) :
    ((ShpBase.incRef o s).2).hooks = s.hooks := rfl

theorem decRef_fst (o : Nat) (s : RefState) :
    (ShpBase.decRef o s).1 = s.cnt o := by
  by_cases h : s.cnt o = 1 <;> simp [ShpBase.decRef, h]

theorem decRef_cnt_self (o : Nat) (s : RefState) :
    ((ShpBase.decRef o s).2).cnt o = s.cnt o - 1 := by
  by_cases h : s.cnt o = 1 <;> simp [ShpBase.decRef, h, updFn]

theorem decRef_cnt_other (o : Nat) (s : RefState) (x : Nat) (hx : x ≠ o) :
    ((ShpBase.decRef o s).2).cnt x = s.cnt x := by
  by_cases h : s.cnt o = 1 <;> simp [ShpBase.decRef, h, updFn, hx]

theorem decRef_hooks (o : Nat) (s : RefState) :
    ((ShpBase.decRef o s).2).hooks = if s.cnt o = 1 then o :: s.hooks else s.hooks := by
  by_cases h : s.cnt o = 1 <;> simp [ShpBase.decRef, h]

/-- Auxiliary step for C1: one operation that leaves the count of `o`
positive cannot grow the hook log at `o`. -/
theorem runRefOp_hooks_count (s : RefState) (op : RefOp) (o : Nat)
    (hpos : 0 < (runRefOp s op).cnt o) :
    (runRefOp s op).hooks.count o = s.hooks.count o := by
  cases op with
  | inc o' => simp [runRefOp, incRef_hooks]
  | dec o' =>
    simp only [runRefOp]
    rw [decRef_hooks]
    by_cases h1 : s.cnt o' = 1
    · rw [if_pos h1]
      by_cases ho : o' = o
      · subst ho
        simp only [runRefOp] at hpos
        rw [decRef_cnt_self, h1] at hpos
        exact absurd hpos (by decide)
      · exact List.count_cons_of_ne (Ne.symm ho) _
    · rw [if_neg h1]

/-- Auxiliary for C1: over any operation sequence that starts with the
count of `o` positive, keeps it positive at every intermediate point,
and ends with it zero, exactly one hook invocation for `o` is logged. -/
theorem hook_fires_once (o : Nat) : ∀ (ops : List RefOp) (s : RefState),
    0 < s.cnt o →
    (∀ k, 0 < k → k < ops.length → 0 < (runRefOps s (ops.take k)).cnt o) →
    (runRefOps s ops).cnt o = 0 →
    (runRefOps s ops).hooks.count o = s.hooks.count o + 1 := by
  intro ops
  induction ops with
  | nil =>
    intro s hpos _ hzero
    simp only [runRefOps] at hzero
    omega
  | cons op rest ih =>
    intro s hpos hmid hzero
    by_cases hr : rest = []
    · subst hr
      simp only [runRefOps] at hzero ⊢
      cases op with
      | inc o' =>
        by_cases ho : o = o'
        · subst ho
          rw [show runRefOp s (RefOp.inc o) = (ShpBase.incRef o s).2 from rfl,
            incRef_cnt_self] at hzero
          omega
        · rw [show runRefOp s (RefOp.inc o') = (ShpBase.incRef o' s).2 from rfl,
            incRef_cnt_other o' s o ho] at hzero
          omega
      | dec o' =>
        by_cases ho : o = o'
        · subst ho
          rw [show runRefOp s (RefOp.dec o) = (ShpBase.decRef o s).2 from rfl,
            decRef_cnt_self] at hzero
          have h1 : s.cnt o = 1 := by omega
          rw [show runRefOp s (RefOp.dec o) = (ShpBase.decRef o s).2 from rfl,
            decRef_hooks, if_pos h1, List.count_cons_self]
        · rw [show runRefOp s (RefOp.dec o') = (ShpBase.decRef o' s).2 from rfl,
            decRef_cnt_other o' s o ho] at hzero
          omega
    · have hlen : 0 < rest.length := List.length_pos.mpr hr
      have h1 : 0 < (runRefOp s op).cnt o := by
        have := hmid 1 (by omega) (by simp; omega)
        simpa [runRefOps, runRefOp] using this
      have hmid' : ∀ k, 0 < k → k < rest.length →
          0 < (runRefOps (runRefOp s op) (rest.take k)).cnt o := by
        intro k hk hk2
        have := hmid (k + 1) (by omega) (by simp; omega)
        simpa [List.take, runRefOps] using this
      have hzero' : (runRefOps (runRefOp s op) rest).cnt o = 0 := hzero
      have := ih (runRefOp s op) h1 hmid' hzero'
      rw [show runRefOps s (op :: rest) = runRefOps (runRefOp s op) rest from rfl, this,
        runRefOp_hooks_count s op o h1]

/-- Claim C1: `decRef` decrements the reference count and returns the
prior value, and the release hook (`unmanage`) is invoked by `decRef`
if and only if the prior value was exactly 1; over any sequence of
`incRef`/`decRef` calls that drives the count of an object from positive
back to 0 (staying positive in between), the hook for that object is
logged exactly once. -/
theorem c1_decRef_hook :
    (∀ (o : Nat) (s : RefState),
        (ShpBase.decRef o s).1 = s.cnt o ∧
        ((ShpBase.decRef o s).2).cnt o = s.cnt o - 1 ∧
        ((ShpBase.decRef o s).2).hooks =
          (if s.cnt o = 1 then o :: s.hooks else s.hooks)) ∧
    (∀ (o : Nat) (ops : List RefOp) (s : RefState),
        0 < s.cnt o →
        (∀ k, 0 < k → k < ops.length → 0 < (runRefOps s (ops.take k)).cnt o) →
        (runRefOps s ops).cnt o = 0 →
        (runRefOps s ops).hooks.count o = s.hooks.count o + 1) :=
  ⟨fun o s => ⟨decRef_fst o s, decRef_cnt_self o s, decRef_hooks o s⟩,
   fun o ops s => hook_fires_once o ops s⟩

/-- Witness for C1: a single `decRef` on a sole-owner object returns the
prior value 1, and that one-element sequence logs the hook exactly once. -/
theorem c1_decRef_hook_witness :
    (ShpBase.decRef 0 refS1).1 = 1 ∧
    (runRefOps refS1 [RefOp.dec 0]).hooks.count 0 = 1 := by
  constructor
  · exact ((c1_decRef_hook.1 0 refS1).1).trans rfl
  · have h := c1_decRef_hook.2 0 [RefOp.dec 0] refS1 (by decide)
      (fun k hk hlt => by
        have hk1 : k < 1 := by simpa using hlt
        exact absurd hk (by omega)) (by decide)
    exact h.trans rfl

/-- Claim C2: self-assignment `h = h` (for `h` empty, or aliasing an
object whose count is at least 1) leaves the stored pointer unchanged,
leaves every reference count unchanged, and does not fire the release
hook. -/
theorem c2_self_assignment (h : Option Nat) (s : RefState)
    (hpos : ∀ o, h = some o → 1 ≤ s.cnt o) :
    (Shp.copyAssign h h s).1 = h ∧
    (∀ x, ((Shp.copyAssign h h s).2).cnt x = s.cnt x) ∧
    ((Shp.copyAssign h h s).2).hooks = s.hooks := by
  cases h with
  | none => exact ⟨rfl, fun _ => rfl, rfl⟩
  | some o =>
    have h1 : 1 ≤ s.cnt o := hpos o rfl
    have e : Shp.copyAssign (some o) (some o) s =
        (some o, (ShpBase.decRef o (ShpBase.incRef o s).2).2) := rfl
    rw [e]
    refine ⟨rfl, ?_, ?_⟩
    · intro x
      by_cases hx : x = o
      · subst hx
        rw [decRef_cnt_self, incRef_cnt_self]
        omega
      · rw [decRef_cnt_other _ _ _ hx, incRef_cnt_other _ _ _ hx]
    · rw [decRef_hooks, incRef_cnt_self, incRef_hooks, if_neg (by omega)]

/-- Witness for C2: self-assignment of a sole-owner handle. -/
theorem c2_self_assignment_witness :
    (Shp.copyAssign (some 0) (some 0) refS1).1 = some 0 ∧
    ((Shp.copyAssign (some 0) (some 0) refS1).2).cnt 0 = 1 ∧
    ((Shp.copyAssign (some 0) (some 0) refS1).2).hooks = [] := by
  have h := c2_self_assignment (some 0) refS1 (fun o ho => by
    injection ho with h2
    subst h2
    decide)
  exact ⟨h.1, (h.2.1 0).trans rfl, h.2.2⟩

/-- Claim C3 evidence: the public move constructor executed at a
sole-owner handle.  `Shp(Shp&&rhs)` delegates with `Shp(rhs, dummy_tag())`,
and the named parameter `rhs` is an lvalue, so the copy tag constructor is
selected: the count rises from 1 to 2 and the source handle still holds
its pointer, where the claim expects the count to stay 1 and the source
to become null. -/
theorem c3_move_ctor_behavior :
    (Shp.moveCtor (some 0) refS1).1 = (some 0, some 0) ∧
    ((Shp.moveCtor (some 0) refS1).2).cnt 0 = 2 ∧
    ((Shp.moveCtor (some 0) refS1).2).hooks = [] := by
  exact ⟨rfl, by decide, rfl⟩

/-- Claim C4 counterexample: two distinct handles aliasing object 0
(count 2); move-assignment between them is a deliberate no-op in the
source, so the right-hand handle is NOT empty afterward, contradicting
the claim. -/
theorem c4_counterexample :
    refS2.cnt 0 = 2 ∧ ¬ ((Shp.moveAssign (some 0) (some 0) refS2).1.2 = none) := by
  decide

/-- Claim C4 as amended: for two distinct non-empty handles aliasing the
same object, move-assignment leaves the object's reference count (and the
whole state) unchanged and leaves both handles still aliasing the object;
the source handle is not emptied (the same-pointer case is an explicit
no-op in the source). -/
theorem c4_move_assign_same_object (o : Nat) (s : RefState) (_h2 : 2 ≤ s.cnt o) :
    Shp.moveAssign (some o) (some o) s = ((some o, some o), s) := by
  simp [Shp.moveAssign]

/-- Witness for the amended C4. -/
theorem c4_move_assign_same_object_witness :
    Shp.moveAssign (some 0) (some 0) refS2 = ((some 0, some 0), refS2) :=
  c4_move_assign_same_object 0 refS2 (by decide)

/-- Claim C5: copy-assigning `h1 = h2` where `h1` solely owns object `a`
(count 1) and `h2` aliases a different object `b`: afterward `a`'s count
is 0 with its release hook fired exactly once (one new log entry, for
`a`), `b`'s count increased by 1, and `h1` aliases `b`. -/
theorem c5_copy_assign_distinct (a b : Nat) (s : RefState)
    (hab : a ≠ b) (ha : s.cnt a = 1) :
    (Shp.copyAssign (some a) (some b) s).1 = some b ∧
    ((Shp.copyAssign (some a) (some b) s).2).cnt a = 0 ∧
    ((Shp.copyAssign (some a) (some b) s).2).cnt b = s.cnt b + 1 ∧
    ((Shp.copyAssign (some a) (some b) s).2).hooks = a :: s.hooks := by
  have e : Shp.copyAssign (some a) (some b) s =
      (some b, (ShpBase.decRef a (ShpBase.incRef b s).2).2) := rfl
  rw [e]
  have hca : ((ShpBase.incRef b s).2).cnt a = 1 := by
    rw [incRef_cnt_other b s a hab, ha]
  refine ⟨rfl, ?_, ?_, ?_⟩
  · rw [decRef_cnt_self, hca]
    omega
  · rw [decRef_cnt_other _ _ _ (Ne.symm hab), incRef_cnt_self]
  · rw [decRef_hooks, hca, if_pos rfl, incRef_hooks]

/-- Witness for C5: `h1` solely owns object 0, `h2` aliases object 1. -/
theorem c5_copy_assign_distinct_witness :
    (Shp.copyAssign (some 0) (some 1) refS1).1 = some 1 ∧
    ((Shp.copyAssign (some 0) (some 1) refS1).2).cnt 0 = 0 ∧
    ((Shp.copyAssign (some 0) (some 1) refS1).2).cnt 1 = 2 ∧
    ((Shp.copyAssign (some 0) (some 1) refS1).2).hooks = [0] := by
  have h := c5_copy_assign_distinct 0 1 refS1 (by decide) (by decide)
  exact ⟨h.1, h.2.1, (h.2.2.1).trans rfl, h.2.2.2⟩

/-! Helper lemmas for the free-list layer: the exact worlds produced by
successful `put` / `getRaw` / `get` calls. -/

/-- World produced by a successful `put w P p`: node `p`'s union slot is
overwritten (as `next_`) with the old chain head, pool `P`'s anchor now
points at `p`, and the advisory counter is bumped. -/
def putWorld (w : FLWorld) (P p : Nat) : FLWorld :=
  { w with
      nodes := updFn w.nodes p { w.nodes p with link := .nextPtr (w.pools P).anchor_ },
      pools := updFn w.pools P
        { anchor_ := some p, avail_ := ((w.pools P).avail_ + 1) % 2 ^ 32 } }

theorem put_ok (w : FLWorld) (P p : Nat) (h0 : (w.nodes p).cnt = 0) :
    FreeListBase.put w P p = .ok (putWorld w P p) := by
  simp [FreeListBase.put, FLNode.setNext, FLNode.use_count, h0, putWorld]

theorem put_err (w : FLWorld) (P p : Nat) (h0 : (w.nodes p).cnt ≠ 0) :
    FreeListBase.put w P p = .error .badAlloc := by
  simp [FreeListBase.put, FLNode.setNext, FLNode.use_count, h0]

/-- World produced by a successful `getRaw w P` that detaches head `r`:
the anchor moves to the value stored in `r`'s union slot, `r`'s union
slot is overwritten (as `list_`) with pool `P`, and the advisory counter
is decremented (with unsigned wrap-around). -/
def getWorld (w : FLWorld) (P r : Nat) : FLWorld :=
  { w with
      nodes := updFn w.nodes r { w.nodes r with link := .listPtr (some P) },
      pools := updFn w.pools P
        { anchor_ := (w.nodes r).link.ptr,
          avail_ := ((w.pools P).avail_ + (2 ^ 32 - 1)) % 2 ^ 32 } }

theorem getRaw_nil (w : FLWorld) (P : Nat) (ha : (w.pools P).anchor_ = none) :
    FreeListBase.getRaw w P = .ok (none, w) := by
  simp [FreeListBase.getRaw, ha]

theorem getRaw_cons (w : FLWorld) (P r : Nat) (ha : (w.pools P).anchor_ = some r)
    (h0 : (w.nodes r).cnt = 0) :
    FreeListBase.getRaw w P = .ok (some r, getWorld w P r) := by
  simp [FreeListBase.getRaw, ha, FLNode.next, FLNode.setList, FLNode.use_count, h0, getWorld]

/-- World update performed by the `Shp` constructor inside `get<T>`:
the checked-out node's count is incremented. -/
def incWorld (w : FLWorld) (n : Nat) : FLWorld :=
  { w with nodes := updFn w.nodes n { w.nodes n with cnt := (w.nodes n).cnt + 1 } }

/-- World after the `fetch_sub` of `decRef` on node `n`: its count is
decremented, nothing else changes. -/
def decWorld (w : FLWorld) (n : Nat) : FLWorld :=
  { w with nodes := updFn w.nodes n { w.nodes n with cnt := (w.nodes n).cnt - 1 } }

theorem get_nil (w : FLWorld) (P : Nat) (ha : (w.pools P).anchor_ = none) :
    FreeListBase.get w P = .ok (none, w) := by
  simp [FreeListBase.get, getRaw_nil w P ha]

theorem get_cons (w : FLWorld) (P r : Nat) (ha : (w.pools P).anchor_ = some r)
    (h0 : (w.nodes r).cnt = 0) :
    FreeListBase.get w P = .ok (some r, incWorld (getWorld w P r) r) := by
  simp [FreeListBase.get, getRaw_cons w P r ha h0, incWorld]

/-- Claim C6 counterexample: node 5 (count 0) is put into pool 0, whose
chain is empty.  `put` completes, but the node's union slot now holds the
old chain head as `next_` (here null); the owner/`list_` member is not
set to the pool, contradicting the claim that `put` records the pool as
the node's owner before returning. -/
theorem c6_counterexample :
    (FreeListBase.put flW0 0 5).map (fun w => (w.nodes 5).link) = .ok (.nextPtr none) ∧
    ULink.nextPtr none ≠ ULink.listPtr (some 0) := by
  exact ⟨rfl, by decide⟩

/-- Claim C6 as amended: for a node with count 0, `put` links the node
ahead of the current chain head (writing the old head into the node's
`next_` member) and makes it the new head, leaving the count at 0 and
everything else untouched; the owner/`list_` field is NOT written by
`put` — the pool records itself as the node's owner later, in `getRaw`,
at checkout time. -/
theorem c6_put_links_head (w : FLWorld) (P p : Nat) (h0 : (w.nodes p).cnt = 0) :
    FreeListBase.put w P p = .ok (putWorld w P p) ∧
    ((putWorld w P p).pools P).anchor_ = some p ∧
    ((putWorld w P p).nodes p).link = .nextPtr (w.pools P).anchor_ ∧
    ((putWorld w P p).nodes p).cnt = 0 ∧
    ((putWorld w P p).pools P).avail_ = ((w.pools P).avail_ + 1) % 2 ^ 32 ∧
    (∀ m, m ≠ p → (putWorld w P p).nodes m = w.nodes m) ∧
    (∀ Q, Q ≠ P → (putWorld w P p).pools Q = w.pools Q) := by
  refine ⟨put_ok w P p h0, ?_, ?_, ?_, ?_, ?_, ?_⟩
  · simp [putWorld, updFn]
  · simp [putWorld, updFn]
  · simp [putWorld, updFn, h0]
  · simp [putWorld, updFn]
  · intro m hm
    simp [putWorld, updFn, hm]
  · intro Q hQ
    simp [putWorld, updFn, hQ]

/-- Witness for the amended C6 at a concrete world. -/
theorem c6_put_links_head_witness :
    (FreeListBase.put flW0 0 5).map
        (fun w => ((w.pools 0).anchor_, (w.nodes 5).link, (w.pools 0).avail_)) =
      .ok (some 5, .nextPtr none, 1) := by
  have h := c6_put_links_head flW0 0 5 rfl
  rw [h.1]
  simp only [Except.map]
  rw [h.2.1, h.2.2.1, h.2.2.2.2.1]
  rfl

/-- Claim C8: each link-field accessor of a `FreeListNode` (`next`,
`setNext`, `list`, `setList`) raises the precondition-violation error
(`std::bad_alloc`) when invoked on a node whose count is greater than 0,
and completes normally — returning or storing the union slot — when the
count is 0. -/
theorem c8_accessors (n : FLNode) :
    (0 < n.cnt →
        n.next = .error .badAlloc ∧ (∀ p, n.setNext p = .error .badAlloc) ∧
        n.list = .error .badAlloc ∧ (∀ p, n.setList p = .error .badAlloc)) ∧
    (n.cnt = 0 →
        n.next = .ok n.link.ptr ∧
        (∀ p, n.setNext p = .ok { n with link := .nextPtr p }) ∧
        n.list = .ok n.link.ptr ∧
        (∀ p, n.setList p = .ok { n with link := .listPtr p })) := by
  constructor
  · intro hpos
    have hne : n.use_count ≠ 0 := by
      simp only [FLNode.use_count]
      omega
    refine ⟨?_, fun p => ?_, ?_, fun p => ?_⟩ <;>
      simp [FLNode.next, FLNode.setNext, FLNode.list, FLNode.setList, hne]
  · intro h0
    have hz : n.use_count = 0 := h0
    refine ⟨?_, fun p => ?_, ?_, fun p => ?_⟩ <;>
      simp [FLNode.next, FLNode.setNext, FLNode.list, FLNode.setList, hz]

/-- Sample referenced node (count 1). -/
def flN1 : FLNode := { cnt := 1, link := .nextPtr none }

/-- Sample unreferenced node (count 0). -/
def flN0 : FLNode := { cnt := 0, link := .nextPtr none }

/-- Witness for C8: a referenced node's accessor raises the error, an
unreferenced node's accessor completes. -/
theorem c8_accessors_witness :
    flN1.next = .error .badAlloc ∧ flN1.setList (some 3) = .error .badAlloc ∧
    flN0.next = .ok none ∧ flN0.setList (some 3) = .ok { cnt := 0, link := .listPtr (some 3) } := by
  have h1 := (c8_accessors flN1).1 (by decide)
  have h0 := (c8_accessors flN0).2 (by decide)
  exact ⟨h1.1, h1.2.2.2 (some 3), (h0.1).trans rfl, (h0.2.2.2 (some 3)).trans rfl⟩

/-- Claim C7: pool round-trip.  For any node with count 0, `put(node)`
followed by `get<T>()` returns a handle wrapping that same node with its
count raised from 0 to 1; and `get<T>()` on a pool whose chain is empty
returns an empty handle (leaving the world unchanged). -/
theorem c7_round_trip (w : FLWorld) (P n : Nat) :
    ((w.nodes n).cnt = 0 →
      FreeListBase.put w P n = .ok (putWorld w P n) ∧
      FreeListBase.get (putWorld w P n) P =
        .ok (some n, incWorld (getWorld (putWorld w P n) P n) n) ∧
      ((incWorld (getWorld (putWorld w P n) P n) n).nodes n).cnt = 1) ∧
    ((w.pools P).anchor_ = none → FreeListBase.get w P = .ok (none, w)) := by
  constructor
  · intro h0
    have ha1 : ((putWorld w P n).pools P).anchor_ = some n := by
      simp [putWorld, updFn]
    have hc1 : ((putWorld w P n).nodes n).cnt = 0 := by
      simp [putWorld, updFn, h0]
    refine ⟨put_ok w P n h0, get_cons _ P n ha1 hc1, ?_⟩
    simp [incWorld, getWorld, updFn, hc1]
  · intro ha
    exact get_nil w P ha

/-- Witness for C7: node 5 round-trips through pool 0 of the sample
world, coming back at count 1; pool 1 of the sample world is empty and
`get` on it returns an empty handle. -/
theorem c7_round_trip_witness :
    ((FreeListBase.put flW0 0 5).bind (fun w1 => FreeListBase.get w1 0)).map
        (fun r => (r.1, (r.2.nodes 5).cnt)) = .ok (some 5, 1) ∧
    FreeListBase.get flW0 1 = .ok (none, flW0) := by
  obtain ⟨h1, h2, h3⟩ := (c7_round_trip flW0 0 5).1 rfl
  constructor
  · rw [h1]
    simp only [Except.bind]
    rw [h2]
    simp only [Except.map]
    rw [h3]
  · exact (c7_round_trip flW0 1 5).2 rfl

/-- Claim C9: a successful `getRaw` on pool `P` that returns a node has
written `P` into that node's owner/`list_` member while the node's count
was (and still is) 0; consequently a checked-out node whose owner member
holds pool `P` — the pool it was most recently checked out from, whatever
pool it was originally put into — is, on the 1-to-0 transition of its
count, handed back to `P`: `decRef` re-links it at the head of `P`'s
free chain. -/
theorem c9_owner_recorded_at_checkout (w : FLWorld) (P n : Nat) :
    (∀ w', FreeListBase.getRaw w P = .ok (some n, w') →
        (w.nodes n).cnt = 0 ∧ (w'.nodes n).cnt = 0 ∧
        (w'.nodes n).link = .listPtr (some P)) ∧
    ((w.nodes n).cnt = 1 → (w.nodes n).link = .listPtr (some P) →
      ∃ w2, FLWorld.decRef w n = .ok (1, w2) ∧
        (w2.pools P).anchor_ = some n ∧ (w2.nodes n).cnt = 0 ∧
        (w2.nodes n).link = .nextPtr (w.pools P).anchor_) := by
  constructor
  · intro w' hw
    rcases ha : (w.pools P).anchor_ with _ | r
    · rw [getRaw_nil w P ha] at hw
      simp at hw
    · by_cases h0 : (w.nodes r).cnt = 0
      · rw [getRaw_cons w P r ha h0] at hw
        simp only [Except.ok.injEq, Prod.mk.injEq, Option.some.injEq] at hw
        obtain ⟨hrn, hw'⟩ := hw
        subst hrn
        subst hw'
        refine ⟨h0, ?_, ?_⟩ <;> simp [getWorld, updFn, h0]
      · rw [FreeListBase.getRaw, ha] at hw
        simp [FLNode.next, FLNode.use_count, h0] at hw
  · intro h1 hl
    have hstep : FLWorld.decRef w n =
        match FreeListNode.unmanage (decWorld w n) n with
        | .error e => .error e
        | .ok w2 => .ok ((w.nodes n).cnt, w2) := by
      simp only [FLWorld.decRef, decWorld]
      rw [if_pos h1]
    have hcnt0 : ((decWorld w n).nodes n).cnt = 0 := by
      simp [decWorld, updFn, h1]
    have hlnk : ((decWorld w n).nodes n).link = .listPtr (some P) := by
      simp [decWorld, updFn, hl]
    have hun : FreeListNode.unmanage (decWorld w n) n =
        FreeListBase.put (decWorld w n) P n := by
      rw [FreeListNode.unmanage, FLNode.list, if_neg (by simp [FLNode.use_count, hcnt0]), hlnk]
      rfl
    refine ⟨putWorld (decWorld w n) P n, ?_, ?_, ?_, ?_⟩
    · rw [hstep, hun, put_ok _ P n hcnt0, h1]
    · simp [putWorld, updFn]
    · simp [putWorld, decWorld, updFn, h1]
    · simp [putWorld, decWorld, updFn]

/-! Claim C10: the advisory counter tracks the length of the free chain. -/

/-- The free chain of a pool, read off a world: starting from an anchor
value, each listed node's union slot holds (as `next_`) the anchor of the
rest of the chain. -/
inductive Chain (w : FLWorld) : Option Nat → List Nat → Prop where
  | nil : Chain w none []
  | cons (n : Nat) (t : Option Nat) (l : List Nat) :
      (w.nodes n).link = .nextPtr t → Chain w t l → Chain w (some n) (n :: l)

theorem chain_nil_anchor (w : FLWorld) (a : Option Nat) (h : Chain w a []) : a = none := by
  cases h
  rfl

theorem chain_cons_head (w : FLWorld) (a : Option Nat) (m : Nat) (t : List Nat)
    (h : Chain w a (m :: t)) :
    a = some m ∧ ∃ t', (w.nodes m).link = .nextPtr t' ∧ Chain w t' t := by
  cases h with
  | cons n t' l hlink hc => exact ⟨rfl, t', hlink, hc⟩

/-- A chain only looks at the nodes it lists. -/
theorem chain_congr (w w' : FLWorld) (a : Option Nat) (l : List Nat)
    (hnodes : ∀ x ∈ l, w'.nodes x = w.nodes x) (h : Chain w a l) : Chain w' a l := by
  induction h with
  | nil => exact Chain.nil
  | cons n t l hlink hc ih =>
    refine Chain.cons n t l ?_ (ih (fun x hx => hnodes x (by simp [hx])))
    rw [hnodes n (by simp)]
    exact hlink

/-- Worlds reachable for pool `P` from a freshly constructed pool (empty
chain, advisory counter 0) by completed `put` calls — of an unreferenced
node not currently in the chain — and completed `getRaw` calls.  The
ghost list records the free chain, newest node first. -/
inductive PoolReach (P : Nat) : FLWorld → List Nat → Prop where
  | init (w : FLWorld) :
      (w.pools P).anchor_ = none → (w.pools P).avail_ = 0 → PoolReach P w []
  | putStep (w : FLWorld) (l : List Nat) (m : Nat) (w' : FLWorld) :
      PoolReach P w l → (w.nodes m).cnt = 0 → m ∉ l →
      FreeListBase.put w P m = .ok w' → PoolReach P w' (m :: l)
  | getStep (w : FLWorld) (l : List Nat) (r : Option Nat) (w' : FLWorld) :
      PoolReach P w l → FreeListBase.getRaw w P = .ok (r, w') →
      PoolReach P w' l.tail

theorem pow32_val : (2 : Nat) ^ 32 = 4294967296 := by norm_num

/-- Claim C10: starting from a freshly constructed pool, after every
completed `put` or `getRaw` call the advisory counter `avail_` equals
the number of nodes in the free chain (modulo the 2^32 wrap-around of
the unsigned counter, hence exactly whenever the chain holds fewer than
2^32 nodes): `put` adds one node and bumps the counter, `getRaw` removes
a node and decrements the counter exactly when the chain is non-empty.
The chain itself, its distinctness, and the all-counts-zero invariant
come along. -/
theorem c10_avail_tracks_chain (P : Nat) (w : FLWorld) (l : List Nat)
    (h : PoolReach P w l) :
    Chain w (w.pools P).anchor_ l ∧ l.Nodup ∧
    (∀ x ∈ l, (w.nodes x).cnt = 0) ∧
    (w.pools P).avail_ = l.length % 2 ^ 32 ∧
    (l.length < 2 ^ 32 → (w.pools P).avail_ = l.length) := by
  induction h with
  | init w ha hv =>
    refine ⟨?_, List.nodup_nil, by simp, by simp [hv], by simp [hv]⟩
    rw [ha]
    exact Chain.nil
  | putStep w l m w' hr h0 hm hput ih =>
    have hw' : w' = putWorld w P m := by
      rw [put_ok w P m h0] at hput
      exact (Except.ok.inj hput).symm
    subst hw'
    have hanch : ((putWorld w P m).pools P).anchor_ = some m := by
      simp [putWorld, updFn]
    have hnodes : ∀ x ∈ l, (putWorld w P m).nodes x = w.nodes x := by
      intro x hx
      have hne : x ≠ m := fun he => hm (he ▸ hx)
      simp [putWorld, updFn, hne]
    refine ⟨?_, List.nodup_cons.mpr ⟨hm, ih.2.1⟩, ?_, ?_, ?_⟩
    · rw [hanch]
      refine Chain.cons m (w.pools P).anchor_ l ?_ ?_
      · simp [putWorld, updFn]
      · exact chain_congr w _ _ l hnodes ih.1
    · intro x hx
      rcases List.mem_cons.mp hx with he | hl
      · subst he
        simp [putWorld, updFn, h0]
      · rw [hnodes x hl]
        exact ih.2.2.1 x hl
    · have havail : ((putWorld w P m).pools P).avail_ =
          ((w.pools P).avail_ + 1) % 2 ^ 32 := by
        simp [putWorld, updFn]
      have hav := ih.2.2.2.1
      rw [havail, hav, List.length_cons]
      simp only [pow32_val]
      omega
    · intro hlen
      have havail : ((putWorld w P m).pools P).avail_ =
          ((w.pools P).avail_ + 1) % 2 ^ 32 := by
        simp [putWorld, updFn]
      have hav := ih.2.2.2.1
      rw [List.length_cons] at hlen
      rw [havail, hav, List.length_cons]
      simp only [pow32_val] at hlen ⊢
      omega
  | getStep w l r w' hr hget ih =>
    rcases l with _ | ⟨m, t⟩
    · have ha := chain_nil_anchor w _ ih.1
      rw [getRaw_nil w P ha] at hget
      have hw' : w' = w := by
        have := Except.ok.inj hget
        exact (congrArg Prod.snd this).symm
      subst hw'
      simpa using ih
    · obtain ⟨ha, t', hlink, hchain⟩ := chain_cons_head w _ m t ih.1
      have hc0 : (w.nodes m).cnt = 0 := ih.2.2.1 m (by simp)
      rw [getRaw_cons w P m ha hc0] at hget
      have hw' : w' = getWorld w P m := by
        have := Except.ok.inj hget
        exact (congrArg Prod.snd this).symm
      subst hw'
      have hmt : m ∉ t := (List.nodup_cons.mp ih.2.1).1
      have hnodes : ∀ x ∈ t, (getWorld w P m).nodes x = w.nodes x := by
        intro x hx
        have hne : x ≠ m := fun he => hmt (he ▸ hx)
        simp [getWorld, updFn, hne]
      have hanch : ((getWorld w P m).pools P).anchor_ = t' := by
        simp [getWorld, updFn, hlink, ULink.ptr]
      refine ⟨?_, (List.nodup_cons.mp ih.2.1).2, ?_, ?_, ?_⟩
      · rw [show (m :: t).tail = t from rfl, hanch]
        exact chain_congr w _ _ t hnodes hchain
      · intro x hx
        rw [show (m :: t).tail = t from rfl] at hx
        rw [hnodes x hx]
        exact ih.2.2.1 x (by simp [hx])
      · have havail : ((getWorld w P m).pools P).avail_ =
            ((w.pools P).avail_ + (2 ^ 32 - 1)) % 2 ^ 32 := by
          simp [getWorld, updFn]
        have hav := ih.2.2.2.1
        rw [List.length_cons] at hav
        rw [show (m :: t).tail = t from rfl, havail, hav]
        simp only [pow32_val]
        omega
      · intro hlen
        have havail : ((getWorld w P m).pools P).avail_ =
            ((w.pools P).avail_ + (2 ^ 32 - 1)) % 2 ^ 32 := by
          simp [getWorld, updFn]
        have hav := ih.2.2.2.1
        rw [List.length_cons] at hav
        rw [show (m :: t).tail = t from rfl] at hlen ⊢
        rw [havail, hav]
        simp only [pow32_val] at hlen ⊢
        omega

/-- Witness for C10: the sample world with one completed `put` on the
fresh pool 0 — the counter reads 1, matching the one-node chain. -/
theorem c10_avail_tracks_chain_witness :
    ((putWorld flW0 0 5).pools 0).avail_ = [5].length % 2 ^ 32 ∧
    ((putWorld flW0 0 5).pools 0).avail_ = [5].length ∧
    Chain (putWorld flW0 0 5) (((putWorld flW0 0 5).pools 0).anchor_) [5] := by
  have hreach : PoolReach 0 (putWorld flW0 0 5) [5] :=
    PoolReach.putStep flW0 [] 5 (putWorld flW0 0 5) (PoolReach.init flW0 rfl rfl) rfl
      (by simp) (put_ok flW0 0 5 rfl)
  have h := c10_avail_tracks_chain 0 (putWorld flW0 0 5) [5] hreach
  exact ⟨h.2.2.2.1, h.2.2.2.2 (by simp [pow32_val]), h.1⟩

/-- Sample world for C9: node 7 is checked out (count 1) with its owner
member holding pool 2; every pool is empty. -/
def flW9 : FLWorld :=
  { nodes := fun i =>
      if i = 7 then { cnt := 1, link := .listPtr (some 2) }
      else { cnt := 0, link := .nextPtr none },
    pools := fun _ => { anchor_ := none, avail_ := 0 } }

/-- Witness for C9: dropping the last reference to node 7 hands it back
to pool 2, the pool recorded in its owner member. -/
theorem c9_owner_recorded_at_checkout_witness :
    (FLWorld.decRef flW9 7).map
        (fun r => (r.1, (r.2.pools 2).anchor_, (r.2.nodes 7).cnt, (r.2.nodes 7).link)) =
      .ok (1, some 7, 0, .nextPtr none) := by
  obtain ⟨w2, hd, ha, hc, hk⟩ :=
    (c9_owner_recorded_at_checkout flW9 2 7).2 (by decide) (by decide)
  rw [hd]
  simp only [Except.map]
  rw [ha, hc, hk]
  rfl
